import Mathlib

/-!
Verification of the account-lockout engine (`LockoutService` in
`src/backend/src/routes/auth.routes.ts`) against its natural-language
specification.  The TypeScript service is shallowly embedded: JS strings
become lists of character codes, the in-memory `Map` becomes a function
from keys to optional records, timestamps are milliseconds as naturals,
and each method becomes an explicit state-passing function.
-/

namespace Lockout

/-- JS strings are modelled as lists of character codes. -/
abbrev Str : Type := List Nat

/-- One entry of the `failedAttempts` map (`LockoutRecord` in the source):
`count` failed attempts since the last reset or lock, the optional
`lockedUntil` timestamp, the lifetime `totalLockouts`, and the timestamp
of the last failed attempt. -/
structure LockoutRecord where
  count : Nat
  lockedUntil : Option Nat
  totalLockouts : Nat
  lastAttempt : Nat
deriving DecidableEq

/-- The state of the engine: the `failedAttempts` map. -/
abbrev St : Type := Str → Option LockoutRecord

/-- Point update of the map; `update st k none` models `Map.delete`. -/
def update (st : St) (k : Str) (v : Option LockoutRecord) : St :=
  fun q => if q = k then v else st q

/-- The two environment-derived settings: `LOCKOUT_MAX_ATTEMPTS` and
`LOCKOUT_DURATION_MS` (called `MAX_ATTEMPTS` and
`BASE_LOCKOUT_DURATION_MS` in the service). -/
structure Config where
  maxAttempts : Nat
  baseLockoutMs : Nat

/-- `MAX_LOCKOUT_DURATION_MS = 24 * 60 * 60 * 1000`. -/
def MAX_LOCKOUT_DURATION_MS : Nat := 24 * 60 * 60 * 1000

/-- `RECORD_EXPIRY_MS = 24 * 60 * 60 * 1000`. -/
def RECORD_EXPIRY_MS : Nat := 24 * 60 * 60 * 1000

/-- ASCII lowercasing of one character code, modelling
`String.prototype.toLowerCase` on the code points involved. -/
def lowerChar (c : Nat) : Nat := if 65 ≤ c ∧ c ≤ 90 then c + 32 else c

/-- `email.toLowerCase()`. -/
def lowerStr (s : Str) : Str := s.map lowerChar

/-- The character codes of `"email:"`. -/
def emailTag : Str := [101, 109, 97, 105, 108, 58]

/-- The character codes of `"ip:"`. -/
def ipTag : Str := [105, 112, 58]

/-- The character codes of `"combo:"`. -/
def comboTag : Str := [99, 111, 109, 98, 111, 58]

/-- The character codes of `":"`. -/
def colonTag : Str := [58]

/-- The key `` `email:${email.toLowerCase()}` ``. -/
def emailKey (email : Str) : Str := emailTag ++ lowerStr email

/-- The key `` `ip:${ip}` ``. -/
def ipKey (ip : Str) : Str := ipTag ++ ip

/-- The key `` `combo:${email.toLowerCase()}:${ip}` ``. -/
def comboKey (email ip : Str) : Str := comboTag ++ lowerStr email ++ colonTag ++ ip

/-- `getCompositeKey(email, ip?)`: the identity key alone when no origin is
given, otherwise identity, origin and combination keys, in this order. -/
def getCompositeKey (email : Str) (ip : Option Str) : List Str :=
  match ip with
  | none => [emailKey email]
  | some o => [emailKey email, ipKey o, comboKey email o]

/-- `calculateLockoutDuration(totalLockouts)`:
`min(base * 2^min(totalLockouts, 10), MAX_LOCKOUT_DURATION_MS)`. -/
def calculateLockoutDuration (cfg : Config) (totalLockouts : Nat) : Nat :=
  min (cfg.baseLockoutMs * 2 ^ min totalLockouts 10) MAX_LOCKOUT_DURATION_MS

/-- The loop body of `isLocked`: walk the derived keys; on the first record
whose `lockedUntil` is still in the future return `true` at once; clear
`lockedUntil` of an expired record in passing; return `false` at the end. -/
def isLockedLoop (now : Nat) : List Str → St → Bool × St
  | [], st => (false, st)
  | k :: ks, st =>
    match st k with
    | some r =>
      match r.lockedUntil with
      | some t =>
        if now < t then (true, st)
        else isLockedLoop now ks (update st k (some { r with lockedUntil := none }))
      | none => isLockedLoop now ks st
    | none => isLockedLoop now ks st

/-- `isLocked(identifier, ip?)`, returning the boolean together with the
(possibly lazily-cleaned) map. -/
def isLocked (identifier : Str) (ip : Option Str) (now : Nat) (st : St) : Bool × St :=
  isLockedLoop now (getCompositeKey identifier ip) st

/-- The record a missing key is treated as
(`{ count: 0, totalLockouts: 0, lastAttempt: new Date() }`). -/
def freshRecord (now : Nat) : LockoutRecord :=
  { count := 0, lockedUntil := none, totalLockouts := 0, lastAttempt := now }

/-- The per-record body of `recordFailedAttempt`'s loop: increment `count`,
stamp `lastAttempt`; once `count` reaches `MAX_ATTEMPTS`, bump
`totalLockouts`, set `lockedUntil = now + duration`, reset `count` to 0 and
report that a lock was triggered. -/
def stepRecord (cfg : Config) (now : Nat) (r : LockoutRecord) : LockoutRecord × Bool :=
  if cfg.maxAttempts ≤ r.count + 1 then
    ({ count := 0,
       lockedUntil := some (now + calculateLockoutDuration cfg (r.totalLockouts + 1)),
       totalLockouts := r.totalLockouts + 1,
       lastAttempt := now }, true)
  else
    ({ r with count := r.count + 1, lastAttempt := now }, false)

/-- One iteration of `recordFailedAttempt`'s `for` loop over the derived
keys, threading the map and the `shouldLock` flag. -/
def recordStep (cfg : Config) (now : Nat) (p : St × Bool) (k : Str) : St × Bool :=
  (update p.1 k (some (stepRecord cfg now ((p.1 k).getD (freshRecord now))).1),
   p.2 || (stepRecord cfg now ((p.1 k).getD (freshRecord now))).2)

/-- `recordFailedAttempt(identifier, ip?)`: fan the failure out over the
derived keys and report whether any key newly locked. -/
def recordFailedAttempt (cfg : Config) (identifier : Str) (ip : Option Str)
    (now : Nat) (st : St) : Bool × St :=
  ((((getCompositeKey identifier ip).foldl (recordStep cfg now) (st, false))).2,
   (((getCompositeKey identifier ip).foldl (recordStep cfg now) (st, false))).1)

/-- `clearAttempts(identifier, ip?)`: on every derived key that has a
record, zero `count` and drop `lockedUntil`, keeping `totalLockouts`. -/
def clearAttempts (identifier : Str) (ip : Option Str) (st : St) : St :=
  (getCompositeKey identifier ip).foldl
    (fun s k =>
      match s k with
      | some r => update s k (some { r with count := 0, lockedUntil := none })
      | none => s) st

/-- `fullReset(identifier, ip?)`: delete every derived record. -/
def fullReset (identifier : Str) (ip : Option Str) (st : St) : St :=
  (getCompositeKey identifier ip).foldl (fun s k => update s k none) st

/-- `Math.ceil(ms / 60000)` for a positive remainder. -/
def ceilMinutes (ms : Nat) : Nat := (ms + 59999) / 60000

/-- `getRemainingLockoutTime(identifier, ip?)`: the largest ceiling-rounded
minute count until a still-active `lockedUntil` among the derived keys. -/
def getRemainingLockoutTime (identifier : Str) (ip : Option Str) (now : Nat) (st : St) : Nat :=
  (getCompositeKey identifier ip).foldl
    (fun acc k =>
      match st k with
      | some r =>
        match r.lockedUntil with
        | some t => if now < t then max acc (ceilMinutes (t - now)) else acc
        | none => acc
      | none => acc) 0

/-- `cleanup()`: drop records that are unlocked and whose `lastAttempt`
predates the retention window, and records whose `lockedUntil` itself
predates the retention window. -/
def cleanup (now : Nat) (st : St) : St :=
  fun k =>
    match st k with
    | none => none
    | some r =>
      if r.lockedUntil = none ∧ r.lastAttempt < now - RECORD_EXPIRY_MS then none
      else
        match r.lockedUntil with
        | some t => if t < now - RECORD_EXPIRY_MS then none else some r
        | none => some r

/-- The map after `n` consecutive `recordFailedAttempt` calls for the same
identity, origin and instant. -/
def runFails (cfg : Config) (identifier : Str) (ip : Option Str) (now : Nat) (st : St) : Nat → St
  | 0 => st
  | n + 1 => (recordFailedAttempt cfg identifier ip now (runFails cfg identifier ip now st n)).2

/-- The boolean returned by the `n`-th of those consecutive calls. -/
def nthCallResult (cfg : Config) (identifier : Str) (ip : Option Str)
    (now : Nat) (st : St) (n : Nat) : Bool :=
  (recordFailedAttempt cfg identifier ip now (runFails cfg identifier ip now st (n - 1))).1

/-- Iterating the per-record step of `recordFailedAttempt`. -/
def stepRecordN (cfg : Config) (now : Nat) : Nat → LockoutRecord → LockoutRecord
  | 0, r => r
  | n + 1, r => (stepRecord cfg now (stepRecordN cfg now n r)).1

/-- One `recordFailedAttempt` per listed identity, all from one origin. -/
def multiRun (cfg : Config) (o : Str) (now : Nat) (ids : List Str) (st : St) : St :=
  ids.foldl (fun s i => (recordFailedAttempt cfg i (some o) now s).2) st

/-- The empty `failedAttempts` map. -/
def emptySt : St := fun _ => none

/-- The configuration from the repository's defaults:
`LOCKOUT_MAX_ATTEMPTS = 5`, `LOCKOUT_DURATION_MS = 900000` (15 minutes). -/
def cfg15 : Config := ⟨5, 900000⟩

/-- A one-character identity, `"a"`. -/
def idA : Str := [97]

/-- A one-character origin, `"b"`. -/
def ipB : Str := [98]

/-- A map where the identity key of `idA` is locked until instant 100 while
the origin key of `ipB` carries an already-expired lock (until instant 50). -/
def stC3 : St := fun q =>
  if q = emailKey idA then some ⟨0, some 100, 0, 0⟩
  else if q = ipKey ipB then some ⟨0, some 50, 0, 0⟩ else none

/-- A configuration whose base lockout already sits at the 24-hour ceiling,
with a threshold of one attempt. -/
def cfgC4 : Config := ⟨1, 86400000⟩

/-- A map holding prior history for `idA`: 3 current failures, a stale
`lockedUntil`, and 4 lifetime lockouts. -/
def stC5 : St := fun q => if q = emailKey idA then some ⟨3, some 7, 4, 5⟩ else none

/-- A record whose lock expired one hour before instant 360000000 and whose
last attempt lies 25 hours before it. -/
def rC8 : LockoutRecord := ⟨0, some 356400000, 1, 270000000⟩

/-- A map holding only `rC8` under the identity key of `idA`. -/
def stC8 : St := fun q => if q = emailKey idA then some rC8 else none

/-! ### Basic lemmas about the map and the derived keys -/

theorem update_self (st : St) (k : Str) (v : Option LockoutRecord) : update st k v k = v := by
  simp [update]

theorem update_ne (st : St) (k : Str) (v : Option LockoutRecord) (q : Str) (h : ¬ q = k) :
    update st k v q = st q := by
  simp [update, h]

theorem emailKey_ne_ipKey (e o : Str) : ¬ emailKey e = ipKey o := by
  simp [emailKey, ipKey, emailTag, ipTag]

theorem ipKey_ne_emailKey (e o : Str) : ¬ ipKey o = emailKey e := by
  simp [emailKey, ipKey, emailTag, ipTag]

theorem emailKey_ne_comboKey (e e' o : Str) : ¬ emailKey e = comboKey e' o := by
  simp [emailKey, comboKey, emailTag, comboTag]

theorem comboKey_ne_emailKey (e e' o : Str) : ¬ comboKey e' o = emailKey e := by
  simp [emailKey, comboKey, emailTag, comboTag]

theorem ipKey_ne_comboKey (e o o' : Str) : ¬ ipKey o' = comboKey e o := by
  simp [ipKey, comboKey, ipTag, comboTag]

theorem comboKey_ne_ipKey (e o o' : Str) : ¬ comboKey e o = ipKey o' := by
  simp [ipKey, comboKey, ipTag, comboTag]

/-! ### Pointwise characterization of `recordFailedAttempt` -/

theorem rfa_apply (cfg : Config) (idt : Str) (ip : Option Str) (now : Nat) (st : St) :
    ∀ k ∈ getCompositeKey idt ip,
      (recordFailedAttempt cfg idt ip now st).2 k =
        some (stepRecord cfg now ((st k).getD (freshRecord now))).1 := by
  intro k hk
  cases ip with
  | none =>
    simp only [getCompositeKey, List.mem_singleton] at hk
    subst hk
    simp [recordFailedAttempt, getCompositeKey, recordStep, update]
  | some o =>
    simp only [getCompositeKey, List.mem_cons, List.mem_singleton, List.not_mem_nil,
      or_false] at hk
    rcases hk with hk | hk | hk <;> subst hk <;>
      simp [recordFailedAttempt, getCompositeKey, recordStep, update,
        emailKey_ne_ipKey, ipKey_ne_emailKey, emailKey_ne_comboKey, comboKey_ne_emailKey,
        ipKey_ne_comboKey, comboKey_ne_ipKey]

theorem rfa_apply_ne (cfg : Config) (idt : Str) (ip : Option Str) (now : Nat) (st : St)
    (q : Str) (hq : q ∉ getCompositeKey idt ip) :
    (recordFailedAttempt cfg idt ip now st).2 q = st q := by
  cases ip with
  | none =>
    simp only [getCompositeKey, List.mem_singleton] at hq
    simp [recordFailedAttempt, getCompositeKey, recordStep, update, hq]
  | some o =>
    simp only [getCompositeKey, List.mem_cons, List.mem_singleton, List.not_mem_nil,
      or_false, not_or] at hq
    simp [recordFailedAttempt, getCompositeKey, recordStep, update, hq.1, hq.2.1, hq.2.2]

theorem rfa_fst (cfg : Config) (idt : Str) (ip : Option Str) (now : Nat) (st : St) :
    (recordFailedAttempt cfg idt ip now st).1 =
      (getCompositeKey idt ip).any
        (fun k => (stepRecord cfg now ((st k).getD (freshRecord now))).2) := by
  cases ip with
  | none => simp [recordFailedAttempt, getCompositeKey, recordStep, update]
  | some o =>
    simp [recordFailedAttempt, getCompositeKey, recordStep, update,
      ipKey_ne_emailKey, comboKey_ne_emailKey, comboKey_ne_ipKey, Bool.or_assoc]

/-! ### Iterating the per-record step -/

theorem stepRecordN_shift (cfg : Config) (now : Nat) (n : Nat) (r : LockoutRecord) :
    stepRecordN cfg now n (stepRecord cfg now r).1 = stepRecordN cfg now (n + 1) r := by
  induction n with
  | zero => rfl
  | succ m ih => simp only [stepRecordN, ih]

theorem stepRecordN_of_lt (cfg : Config) (now L : Nat) :
    ∀ i, i < cfg.maxAttempts →
      stepRecordN cfg now i ⟨0, none, L, now⟩ = ⟨i, none, L, now⟩ := by
  intro i hi
  induction i with
  | zero => rfl
  | succ n ih =>
    have hn : n < cfg.maxAttempts := by omega
    have hcond : ¬ cfg.maxAttempts ≤ n + 1 := by omega
    simp only [stepRecordN, ih hn, stepRecord, hcond, if_false]

theorem stepRecordN_lock (cfg : Config) (now L : Nat) (hmax : 1 ≤ cfg.maxAttempts) :
    stepRecordN cfg now cfg.maxAttempts ⟨0, none, L, now⟩ =
      ⟨0, some (now + calculateLockoutDuration cfg (L + 1)), L + 1, now⟩ := by
  obtain ⟨m, hm⟩ : ∃ m, cfg.maxAttempts = m + 1 := ⟨cfg.maxAttempts - 1, by omega⟩
  have hlt : m < cfg.maxAttempts := by omega
  have hcond : cfg.maxAttempts ≤ m + 1 := by omega
  rw [hm]
  simp only [stepRecordN, stepRecordN_of_lt cfg now L m hlt, stepRecord, hcond, if_true]

theorem runFails_apply (cfg : Config) (idt : Str) (ip : Option Str) (now : Nat) (st : St)
    (k : Str) (hk : k ∈ getCompositeKey idt ip) (h0 : st k = none) :
    ∀ n, (runFails cfg idt ip now st n) k =
      if n = 0 then none else some (stepRecordN cfg now n (freshRecord now)) := by
  intro n
  induction n with
  | zero => simpa [runFails] using h0
  | succ m ih =>
    have := rfa_apply cfg idt ip now (runFails cfg idt ip now st m) k hk
    rw [runFails, this, ih]
    by_cases hm : m = 0
    · subst hm; simp [stepRecordN]
    · simp only [hm, if_false, Nat.succ_ne_zero, Option.getD_some]
      simp [stepRecordN]

/-! ### The `isLocked` loop -/

theorem isLockedLoop_fst_iff (now : Nat) :
    ∀ (ks : List Str) (st : St),
      (isLockedLoop now ks st).1 = true ↔
        ∃ k ∈ ks, ∃ r, ∃ t, st k = some r ∧ r.lockedUntil = some t ∧ now < t := by
  intro ks
  induction ks with
  | nil => intro st; simp [isLockedLoop]
  | cons k ks ih =>
    intro st
    rcases hr : st k with _ | r
    · simp only [isLockedLoop, hr]
      rw [ih]
      constructor
      · rintro ⟨k', hk', r, t, h⟩; exact ⟨k', List.mem_cons_of_mem _ hk', r, t, h⟩
      · rintro ⟨k', hk', r, t, hs, hl, ht⟩
        rcases List.mem_cons.1 hk' with rfl | hk'
        · rw [hr] at hs; cases hs
        · exact ⟨k', hk', r, t, hs, hl, ht⟩
    · rcases hl : r.lockedUntil with _ | t
      · simp only [isLockedLoop, hr, hl]
        rw [ih]
        constructor
        · rintro ⟨k', hk', r', t', h⟩; exact ⟨k', List.mem_cons_of_mem _ hk', r', t', h⟩
        · rintro ⟨k', hk', r', t', hs, hl', ht⟩
          rcases List.mem_cons.1 hk' with rfl | hk'
          · rw [hr] at hs; injection hs with hs; subst hs; rw [hl] at hl'; cases hl'
          · exact ⟨k', hk', r', t', hs, hl', ht⟩
      · by_cases ht : now < t
        · simp only [isLockedLoop, hr, hl]
          rw [if_pos ht]
          constructor
          · intro _; exact ⟨k, List.mem_cons_self _ _, r, t, hr, hl, ht⟩
          · intro _; rfl
        · simp only [isLockedLoop, hr, hl]
          rw [if_neg ht, ih]
          constructor
          · rintro ⟨k', hk', r', t', hs, hl', ht'⟩
            by_cases hkk : k' = k
            · subst hkk
              rw [update_self] at hs
              injection hs with hs; subst hs
              simp at hl'
            · rw [update_ne _ _ _ _ hkk] at hs
              exact ⟨k', List.mem_cons_of_mem _ hk', r', t', hs, hl', ht'⟩
          · rintro ⟨k', hk', r', t', hs, hl', ht'⟩
            by_cases hkk : k' = k
            · subst hkk
              rw [hr] at hs; injection hs with hs; subst hs
              rw [hl] at hl'; injection hl' with hl'; subst hl'
              exact absurd ht' ht
            · rcases List.mem_cons.1 hk' with rfl | hk''
              · exact absurd rfl hkk
              · refine ⟨k', hk'', r', t', ?_, hl', ht'⟩
                rw [update_ne _ _ _ _ hkk]; exact hs

theorem isLockedLoop_none (now : Nat) :
    ∀ (ks : List Str) (st : St) (k : Str), st k = none →
      (isLockedLoop now ks st).2 k = none := by
  intro ks
  induction ks with
  | nil => intro st k h; exact h
  | cons k' ks ih =>
    intro st k h
    rcases hr : st k' with _ | r
    · simp only [isLockedLoop, hr]; exact ih st k h
    · rcases hl : r.lockedUntil with _ | t
      · simp only [isLockedLoop, hr, hl]; exact ih st k h
      · by_cases ht : now < t
        · simp only [isLockedLoop, hr, hl]; rw [if_pos ht]; exact h
        · simp only [isLockedLoop, hr, hl]
          rw [if_neg ht]
          refine ih _ k ?_
          have hkk : ¬ k = k' := fun he => by rw [he, hr] at h; cases h
          rw [update_ne _ _ _ _ hkk]; exact h

theorem isLockedLoop_unlocked_stable (now : Nat) :
    ∀ (ks : List Str) (st : St) (k : Str) (r : LockoutRecord),
      st k = some r → r.lockedUntil = none →
      (isLockedLoop now ks st).2 k = some r := by
  intro ks
  induction ks with
  | nil => intro st k r h _; exact h
  | cons k' ks ih =>
    intro st k r h hnone
    rcases hr : st k' with _ | r'
    · simp only [isLockedLoop, hr]; exact ih st k r h hnone
    · rcases hl : r'.lockedUntil with _ | t
      · simp only [isLockedLoop, hr, hl]; exact ih st k r h hnone
      · by_cases ht : now < t
        · simp only [isLockedLoop, hr, hl]; rw [if_pos ht]; exact h
        · simp only [isLockedLoop, hr, hl]
          rw [if_neg ht]
          refine ih _ k r ?_ hnone
          have hkk : ¬ k = k' := by
            intro he
            rw [he, hr] at h
            injection h with h
            subst h
            rw [hnone] at hl
            cases hl
          rw [update_ne _ _ _ _ hkk]; exact h

theorem isLockedLoop_clears (now : Nat) :
    ∀ (ks : List Str) (st : St), (isLockedLoop now ks st).1 = false →
      ∀ k ∈ ks, ∀ r t, st k = some r → r.lockedUntil = some t →
        (isLockedLoop now ks st).2 k = some { r with lockedUntil := none } := by
  intro ks
  induction ks with
  | nil => intro st _ k hk; cases hk
  | cons k' ks ih =>
    intro st hfalse k hk r t h hl
    rcases hr : st k' with _ | r'
    · simp only [isLockedLoop, hr] at hfalse ⊢
      rcases List.mem_cons.1 hk with rfl | hk''
      · rw [hr] at h; cases h
      · exact ih st hfalse k hk'' r t h hl
    · rcases hl' : r'.lockedUntil with _ | t'
      · simp only [isLockedLoop, hr, hl'] at hfalse ⊢
        rcases List.mem_cons.1 hk with rfl | hk''
        · rw [hr] at h; injection h with h; subst h
          rw [hl] at hl'; cases hl'
        · exact ih st hfalse k hk'' r t h hl
      · by_cases ht' : now < t'
        · simp only [isLockedLoop, hr, hl'] at hfalse; rw [if_pos ht'] at hfalse; cases hfalse
        · simp only [isLockedLoop, hr, hl'] at hfalse ⊢
          rw [if_neg ht'] at hfalse ⊢
          by_cases hkk : k = k'
          · subst hkk
            rw [hr] at h; injection h with h; subst h
            exact isLockedLoop_unlocked_stable now ks _ k _ (update_self _ _ _) rfl
          · rcases List.mem_cons.1 hk with rfl | hk''
            · exact absurd rfl hkk
            · refine ih _ hfalse k hk'' r t ?_ hl
              rw [update_ne _ _ _ _ hkk]; exact h

theorem isLockedLoop_cases (now : Nat) :
    ∀ (ks : List Str) (st : St) (k : Str),
      (isLockedLoop now ks st).2 k = st k ∨
        ∃ r, st k = some r ∧
          (isLockedLoop now ks st).2 k = some { r with lockedUntil := none } := by
  intro ks
  induction ks with
  | nil => intro st k; exact Or.inl rfl
  | cons k' ks ih =>
    intro st k
    rcases hr : st k' with _ | r
    · simp only [isLockedLoop, hr]; exact ih st k
    · rcases hl : r.lockedUntil with _ | t
      · simp only [isLockedLoop, hr, hl]; exact ih st k
      · by_cases ht : now < t
        · simp only [isLockedLoop, hr, hl]; rw [if_pos ht]; exact Or.inl rfl
        · simp only [isLockedLoop, hr, hl]; rw [if_neg ht]
          rcases ih (update st k' (some { r with lockedUntil := none })) k with h | ⟨r', hr', h⟩
          · by_cases hkk : k = k'
            · subst hkk
              rw [update_self] at h
              exact Or.inr ⟨r, hr, h⟩
            · rw [update_ne _ _ _ _ hkk] at h
              exact Or.inl h
          · by_cases hkk : k = k'
            · subst hkk
              rw [update_self] at hr'
              injection hr' with hr'
              refine Or.inr ⟨r, hr, ?_⟩
              rw [← hr'] at h
              simpa using h
            · rw [update_ne _ _ _ _ hkk] at hr'
              exact Or.inr ⟨r', hr', h⟩

/-! ### Pointwise characterization of `clearAttempts` and `fullReset` -/

theorem clearAttempts_apply (idt : Str) (ip : Option Str) (st : St) :
    ∀ k ∈ getCompositeKey idt ip,
      clearAttempts idt ip st k =
        (st k).map (fun r => { r with count := 0, lockedUntil := none }) := by
  intro k hk
  cases ip with
  | none =>
    simp only [getCompositeKey, List.mem_singleton] at hk
    subst hk
    rcases h1 : st (emailKey idt) with _ | r1 <;>
      simp [clearAttempts, getCompositeKey, update, h1]
  | some o =>
    simp only [getCompositeKey, List.mem_cons, List.mem_singleton, List.not_mem_nil,
      or_false] at hk
    rcases h1 : st (emailKey idt) with _ | r1 <;>
      rcases h2 : st (ipKey o) with _ | r2 <;>
        rcases h3 : st (comboKey idt o) with _ | r3 <;>
          rcases hk with hk | hk | hk <;> subst hk <;>
            simp [clearAttempts, getCompositeKey, update, h1, h2, h3,
              emailKey_ne_ipKey, ipKey_ne_emailKey, emailKey_ne_comboKey,
              comboKey_ne_emailKey, ipKey_ne_comboKey, comboKey_ne_ipKey]

theorem clearAttempts_ne (idt : Str) (ip : Option Str) (st : St)
    (q : Str) (hq : q ∉ getCompositeKey idt ip) :
    clearAttempts idt ip st q = st q := by
  cases ip with
  | none =>
    simp only [getCompositeKey, List.mem_singleton] at hq
    rcases h1 : st (emailKey idt) with _ | r1 <;>
      simp [clearAttempts, getCompositeKey, update, h1, hq]
  | some o =>
    simp only [getCompositeKey, List.mem_cons, List.mem_singleton, List.not_mem_nil,
      or_false, not_or] at hq
    rcases h1 : st (emailKey idt) with _ | r1 <;>
      rcases h2 : st (ipKey o) with _ | r2 <;>
        rcases h3 : st (comboKey idt o) with _ | r3 <;>
          simp [clearAttempts, getCompositeKey, update, h1, h2, h3, hq.1, hq.2.1, hq.2.2,
            emailKey_ne_ipKey, ipKey_ne_emailKey, emailKey_ne_comboKey,
            comboKey_ne_emailKey, ipKey_ne_comboKey, comboKey_ne_ipKey]

theorem fullReset_apply (idt : Str) (ip : Option Str) (st : St) :
    ∀ k ∈ getCompositeKey idt ip, fullReset idt ip st k = none := by
  intro k hk
  cases ip with
  | none =>
    simp only [getCompositeKey, List.mem_singleton] at hk
    subst hk
    simp [fullReset, getCompositeKey, update]
  | some o =>
    simp only [getCompositeKey, List.mem_cons, List.mem_singleton, List.not_mem_nil,
      or_false] at hk
    rcases hk with hk | hk | hk <;> subst hk <;>
      simp [fullReset, getCompositeKey, update,
        emailKey_ne_ipKey, ipKey_ne_emailKey, emailKey_ne_comboKey,
        comboKey_ne_emailKey, ipKey_ne_comboKey, comboKey_ne_ipKey]

theorem fullReset_ne (idt : Str) (ip : Option Str) (st : St)
    (q : Str) (hq : q ∉ getCompositeKey idt ip) :
    fullReset idt ip st q = st q := by
  cases ip with
  | none =>
    simp only [getCompositeKey, List.mem_singleton] at hq
    simp [fullReset, getCompositeKey, update, hq]
  | some o =>
    simp only [getCompositeKey, List.mem_cons, List.mem_singleton, List.not_mem_nil,
      or_false, not_or] at hq
    simp [fullReset, getCompositeKey, update, hq.1, hq.2.1, hq.2.2]

/-! ### Runs of `recordFailedAttempt` across several identities -/

theorem multiRun_ip (cfg : Config) (o : Str) (now : Nat) :
    ∀ (ids : List Str) (st : St) (r : LockoutRecord), st (ipKey o) = some r →
      (multiRun cfg o now ids st) (ipKey o) = some (stepRecordN cfg now ids.length r) := by
  intro ids
  induction ids with
  | nil => intro st r h; simpa [multiRun, stepRecordN] using h
  | cons i ids ih =>
    intro st r h
    have hmem : ipKey o ∈ getCompositeKey i (some o) := by
      simp [getCompositeKey]
    have hstep := rfa_apply cfg i (some o) now st (ipKey o) hmem
    rw [h] at hstep
    have hms : multiRun cfg o now (i :: ids) st =
        multiRun cfg o now ids (recordFailedAttempt cfg i (some o) now st).2 := rfl
    rw [hms, ih _ _ hstep]
    simp [stepRecordN_shift]

theorem multiRun_ip_fresh (cfg : Config) (o : Str) (now : Nat)
    (i : Str) (ids : List Str) (st : St) (h : st (ipKey o) = none) :
    (multiRun cfg o now (i :: ids) st) (ipKey o) =
      some (stepRecordN cfg now (ids.length + 1) (freshRecord now)) := by
  have hmem : ipKey o ∈ getCompositeKey i (some o) := by
    simp [getCompositeKey]
  have hstep := rfa_apply cfg i (some o) now st (ipKey o) hmem
  rw [h] at hstep
  have hms : multiRun cfg o now (i :: ids) st =
      multiRun cfg o now ids (recordFailedAttempt cfg i (some o) now st).2 := rfl
  rw [hms, multiRun_ip cfg o now ids _ _ hstep]
  simp [stepRecordN_shift]

/-! ### Lowercasing and the duration formula -/

theorem lowerChar_idem (c : Nat) : lowerChar (lowerChar c) = lowerChar c := by
  simp only [lowerChar]
  split_ifs <;> omega

theorem lowerStr_idem (s : Str) : lowerStr (lowerStr s) = lowerStr s := by
  induction s with
  | nil => rfl
  | cons c s ih =>
    simp only [lowerStr, List.map_cons, List.cons.injEq] at ih ⊢
    exact ⟨lowerChar_idem c, ih⟩

theorem getCompositeKey_lower (idt : Str) (ip : Option Str) :
    getCompositeKey (lowerStr idt) ip = getCompositeKey idt ip := by
  cases ip <;> simp [getCompositeKey, emailKey, comboKey, lowerStr_idem]

theorem calculateLockoutDuration_mono (cfg : Config) (L : Nat) :
    calculateLockoutDuration cfg L ≤ calculateLockoutDuration cfg (L + 1) := by
  unfold calculateLockoutDuration
  exact min_le_min
    (Nat.mul_le_mul_left _ (Nat.pow_le_pow_right (by norm_num) (by omega))) le_rfl

theorem calculateLockoutDuration_strict (cfg : Config) (hbase : 1 ≤ cfg.baseLockoutMs)
    (L : Nat) (hL : L < 10)
    (hcap : cfg.baseLockoutMs * 2 ^ (L + 1) ≤ MAX_LOCKOUT_DURATION_MS) :
    calculateLockoutDuration cfg L < calculateLockoutDuration cfg (L + 1) := by
  unfold calculateLockoutDuration
  have h1 : min L 10 = L := Nat.min_eq_left (by omega)
  have h2 : min (L + 1) 10 = L + 1 := Nat.min_eq_left (by omega)
  rw [h1, h2, Nat.min_eq_left hcap]
  have hp : 0 < 2 ^ L := pow_pos (by norm_num) L
  have hq : 0 < cfg.baseLockoutMs * 2 ^ L := Nat.mul_pos hbase hp
  have he : cfg.baseLockoutMs * 2 ^ (L + 1) = cfg.baseLockoutMs * 2 ^ L * 2 := by
    rw [pow_succ, ← mul_assoc]
  calc min (cfg.baseLockoutMs * 2 ^ L) MAX_LOCKOUT_DURATION_MS
      ≤ cfg.baseLockoutMs * 2 ^ L := min_le_left _ _
    _ < cfg.baseLockoutMs * 2 ^ (L + 1) := by omega


/-! ### The claims -/

/-- Claim C2: whenever `recordFailedAttempt` triggers a lock on a derived key
(the incremented count reaches the threshold), the record stored under that
key in the same call has `lockedUntil = now + min(base * 2^min(tl, 10), 24h)`
where `tl` is the key's lifetime lockout count after being incremented for
this lock event, its `totalLockouts` is that incremented count, and its
`count` is reset to 0. -/
theorem claimC2 (cfg : Config) (idt : Str) (ip : Option Str) (now : Nat) (st : St)
    (k : Str) (hk : k ∈ getCompositeKey idt ip)
    (hthr : cfg.maxAttempts ≤ ((st k).getD (freshRecord now)).count + 1) :
    (recordFailedAttempt cfg idt ip now st).2 k =
      some { count := 0,
             lockedUntil := some (now +
               min (cfg.baseLockoutMs *
                     2 ^ min (((st k).getD (freshRecord now)).totalLockouts + 1) 10)
                 (24 * 60 * 60 * 1000)),
             totalLockouts := ((st k).getD (freshRecord now)).totalLockouts + 1,
             lastAttempt := now } := by
  rw [rfa_apply cfg idt ip now st k hk]
  simp [stepRecord, hthr, calculateLockoutDuration, MAX_LOCKOUT_DURATION_MS]

/-- Witness for C2: with a threshold of one attempt and a 15-minute base, a
first failure on a fresh identity key locks until `0 + min(2 * base, 24h)`,
that is instant 1800000, with one lifetime lockout and a zeroed count. -/
theorem claimC2_witness :
    (recordFailedAttempt ⟨1, 900000⟩ idA none 0 emptySt).2 (emailKey idA) =
      some ⟨0, some 1800000, 1, 0⟩ :=
  (claimC2 ⟨1, 900000⟩ idA none 0 emptySt (emailKey idA)
    (by simp [getCompositeKey]) (by decide)).trans (by decide)

/-- Claim C9: the engine is case-insensitive in the identity: every
operation returns the same result and the same map when the identity is
replaced by its lowercased form, because the derived keys are computed from
the lowercased identity. -/
theorem claimC9 (cfg : Config) (idt : Str) (ip : Option Str) (now : Nat) (st : St) (n : Nat) :
    getCompositeKey (lowerStr idt) ip = getCompositeKey idt ip ∧
    isLocked (lowerStr idt) ip now st = isLocked idt ip now st ∧
    recordFailedAttempt cfg (lowerStr idt) ip now st = recordFailedAttempt cfg idt ip now st ∧
    clearAttempts (lowerStr idt) ip st = clearAttempts idt ip st ∧
    fullReset (lowerStr idt) ip st = fullReset idt ip st ∧
    getRemainingLockoutTime (lowerStr idt) ip now st = getRemainingLockoutTime idt ip now st ∧
    runFails cfg (lowerStr idt) ip now st n = runFails cfg idt ip now st n := by
  have h := getCompositeKey_lower idt ip
  refine ⟨h, ?_, ?_, ?_, ?_, ?_, ?_⟩
  · simp only [isLocked, h]
  · simp only [recordFailedAttempt, h]
  · simp only [clearAttempts, h]
  · simp only [fullReset, h]
  · simp only [getRemainingLockoutTime, h]
  · induction n with
    | zero => rfl
    | succ m ih => simp only [runFails, ih, recordFailedAttempt, h]

/-- Claim C10: provided the threshold is at least 1, every stored record
keeps `count` strictly below `maxAttempts` across all five state-touching
operations, because the lock resets the count to 0 in the very call in which
the threshold is reached. -/
theorem claimC10 (cfg : Config) (idt : Str) (ip : Option Str) (now : Nat) (st : St)
    (hmax : 1 ≤ cfg.maxAttempts)
    (hinv : ∀ k r, st k = some r → r.count < cfg.maxAttempts) :
    (∀ k r, (recordFailedAttempt cfg idt ip now st).2 k = some r → r.count < cfg.maxAttempts) ∧
    (∀ k r, (isLocked idt ip now st).2 k = some r → r.count < cfg.maxAttempts) ∧
    (∀ k r, clearAttempts idt ip st k = some r → r.count < cfg.maxAttempts) ∧
    (∀ k r, fullReset idt ip st k = some r → r.count < cfg.maxAttempts) ∧
    (∀ k r, cleanup now st k = some r → r.count < cfg.maxAttempts) := by
  have hstep : ∀ r : LockoutRecord, (stepRecord cfg now r).1.count < cfg.maxAttempts := by
    intro r
    unfold stepRecord
    split_ifs with h
    · simpa using hmax
    · simp
      omega
  refine ⟨?_, ?_, ?_, ?_, ?_⟩
  · intro k r hk
    by_cases hmem : k ∈ getCompositeKey idt ip
    · rw [rfa_apply cfg idt ip now st k hmem] at hk
      injection hk with hk
      rw [← hk]
      exact hstep _
    · rw [rfa_apply_ne cfg idt ip now st k hmem] at hk
      exact hinv k r hk
  · intro k r hk
    unfold isLocked at hk
    rcases isLockedLoop_cases now (getCompositeKey idt ip) st k with h | ⟨r', hr', h⟩
    · rw [h] at hk
      exact hinv k r hk
    · rw [h] at hk
      injection hk with hk
      rw [← hk]
      simpa using hinv k r' hr'
  · intro k r hk
    by_cases hmem : k ∈ getCompositeKey idt ip
    · rw [clearAttempts_apply idt ip st k hmem] at hk
      rcases h0 : st k with _ | r0
      · rw [h0] at hk
        cases hk
      · rw [h0] at hk
        injection hk with hk
        rw [← hk]
        simpa using hmax
    · rw [clearAttempts_ne idt ip st k hmem] at hk
      exact hinv k r hk
  · intro k r hk
    by_cases hmem : k ∈ getCompositeKey idt ip
    · rw [fullReset_apply idt ip st k hmem] at hk
      cases hk
    · rw [fullReset_ne idt ip st k hmem] at hk
      exact hinv k r hk
  · intro k r hk
    rcases h0 : st k with _ | r0
    · simp [cleanup, h0] at hk
    · have hcases : cleanup now st k = none ∨ cleanup now st k = some r0 := by
        simp only [cleanup, h0]
        rcases hl : r0.lockedUntil with _ | t <;> simp only [hl] <;>
          split_ifs <;> simp
      rcases hcases with h | h
      · rw [h] at hk
        cases hk
      · rw [h] at hk
        injection hk with hk
        rw [← hk]
        exact hinv k r0 h0

/-- Witness for C10: the invariant is preserved on a concrete map holding a
record with 3 failures under a threshold of 5. -/
theorem claimC10_witness : ((⟨3, some 7, 4, 5⟩ : LockoutRecord)).count < cfg15.maxAttempts :=
  (claimC10 cfg15 idA none 0 stC5 (by decide)
    (fun k r h => by
      by_cases hk : k = emailKey idA
      · subst hk
        simp only [stC5, if_pos rfl] at h
        injection h with h
        rw [← h]
        decide
      · simp [stC5, hk] at h)).2.2.2.2 (emailKey idA) ⟨3, some 7, 4, 5⟩ (by decide)

/-- Claim C1: from a map with no record under any derived key, the first
`maxAttempts - 1` consecutive `recordFailedAttempt` calls return `false`,
the `maxAttempts`-th returns `true`, and `isLocked` returns `true`
immediately afterwards. -/
theorem claimC1 (cfg : Config) (idt : Str) (ip : Option Str) (now : Nat) (st : St)
    (hmax : 1 ≤ cfg.maxAttempts) (hbase : 1 ≤ cfg.baseLockoutMs)
    (hfresh : ∀ k ∈ getCompositeKey idt ip, st k = none) :
    (∀ i, 1 ≤ i → i < cfg.maxAttempts → nthCallResult cfg idt ip now st i = false) ∧
    nthCallResult cfg idt ip now st cfg.maxAttempts = true ∧
    (isLocked idt ip now (runFails cfg idt ip now st cfg.maxAttempts)).1 = true := by
  have hfreshEq : freshRecord now = (⟨0, none, 0, now⟩ : LockoutRecord) := rfl
  have hgetD : ∀ k ∈ getCompositeKey idt ip, ∀ j,
      ((runFails cfg idt ip now st j) k).getD (freshRecord now) =
        stepRecordN cfg now j (freshRecord now) := by
    intro k hk j
    rw [runFails_apply cfg idt ip now st k hk (hfresh k hk) j]
    by_cases hj : j = 0
    · subst hj
      simp [stepRecordN]
    · simp [hj]
  have hmem : emailKey idt ∈ getCompositeKey idt ip := by
    cases ip <;> simp [getCompositeKey]
  refine ⟨?_, ?_, ?_⟩
  · intro i h1 hi
    obtain ⟨j, rfl⟩ : ∃ j, i = j + 1 := ⟨i - 1, by omega⟩
    unfold nthCallResult
    rw [Nat.add_sub_cancel, rfa_fst]
    simp only [List.any_eq_false]
    intro k hk
    rw [hgetD k hk j, hfreshEq, stepRecordN_of_lt cfg now 0 j (by omega)]
    simp [stepRecord, show ¬ cfg.maxAttempts ≤ j + 1 from by omega]
  · obtain ⟨m, hm⟩ : ∃ m, cfg.maxAttempts = m + 1 := ⟨cfg.maxAttempts - 1, by omega⟩
    unfold nthCallResult
    rw [rfa_fst]
    refine List.any_eq_true.2 ⟨emailKey idt, hmem, ?_⟩
    rw [hgetD _ hmem (cfg.maxAttempts - 1), hfreshEq, hm, Nat.add_sub_cancel,
      stepRecordN_of_lt cfg now 0 m (by omega)]
    simp [stepRecord, show cfg.maxAttempts ≤ m + 1 from by omega]
  · have hk1 := runFails_apply cfg idt ip now st (emailKey idt) hmem (hfresh _ hmem)
      cfg.maxAttempts
    rw [if_neg (by omega : ¬ cfg.maxAttempts = 0), hfreshEq,
      stepRecordN_lock cfg now 0 hmax] at hk1
    have hdur : 0 < calculateLockoutDuration cfg 1 := by
      unfold calculateLockoutDuration MAX_LOCKOUT_DURATION_MS
      refine lt_min ?_ (by norm_num)
      exact Nat.mul_pos hbase (pow_pos (by norm_num) _)
    unfold isLocked
    exact (isLockedLoop_fst_iff now (getCompositeKey idt ip) _).2
      ⟨emailKey idt, hmem, ⟨0, some (now + calculateLockoutDuration cfg 1), 1, now⟩,
        now + calculateLockoutDuration cfg 1, hk1, rfl, by omega⟩

/-- Witness for C1: with a threshold of 2 attempts and a 1 ms base window,
the second failure on a fresh identity reports a lock. -/
theorem claimC1_witness :
    nthCallResult ⟨2, 1⟩ idA none 0 emptySt 2 = true :=
  (claimC1 ⟨2, 1⟩ idA none 0 emptySt (by decide) (by decide) (fun k _ => rfl)).2.1


/-- Claim C3, counterexample: it is not the case that `isLocked` clears the
`lockedUntil` field of every derived record whose lock has passed.  With the
identity key still locked (until instant 100) and the origin key holding an
expired lock (until instant 50), the call at instant 60 returns early on the
identity key and leaves the origin key's expired `lockedUntil` in place. -/
theorem claimC3_counterexample :
    ¬ (∀ k ∈ getCompositeKey idA (some ipB), ∀ r t, stC3 k = some r →
        r.lockedUntil = some t → t ≤ 60 →
        (isLocked idA (some ipB) 60 stC3).2 k = some { r with lockedUntil := none }) := by
  intro h
  have hm : ipKey ipB ∈ getCompositeKey idA (some ipB) := by simp [getCompositeKey]
  have hx := h (ipKey ipB) hm ⟨0, some 50, 0, 0⟩ 50 (by decide) rfl (by decide)
  rw [show (isLocked idA (some ipB) 60 stC3).2 (ipKey ipB) = some ⟨0, some 50, 0, 0⟩
    from by decide] at hx
  simp at hx

/-- Claim C3, amended: `isLocked` returns `true` iff some derived record has
a `lockedUntil` still in the future; when it returns `false` it has cleared
the `lockedUntil` of every derived record whose lock has passed (on an early
`true` return only the records visited before the still-locked key are
cleared); and it never creates new records. -/
theorem claimC3_amended (idt : Str) (ip : Option Str) (now : Nat) (st : St) :
    ((isLocked idt ip now st).1 = true ↔
      ∃ k ∈ getCompositeKey idt ip, ∃ r, ∃ t,
        st k = some r ∧ r.lockedUntil = some t ∧ now < t) ∧
    ((isLocked idt ip now st).1 = false →
      ∀ k ∈ getCompositeKey idt ip, ∀ r t, st k = some r → r.lockedUntil = some t →
        t ≤ now → (isLocked idt ip now st).2 k = some { r with lockedUntil := none }) ∧
    (∀ q, st q = none → (isLocked idt ip now st).2 q = none) := by
  refine ⟨isLockedLoop_fst_iff now (getCompositeKey idt ip) st, ?_, ?_⟩
  · intro hfalse k hk r t h1 h2 _
    exact isLockedLoop_clears now (getCompositeKey idt ip) st hfalse k hk r t h1 h2
  · intro q hq
    exact isLockedLoop_none now (getCompositeKey idt ip) st q hq

/-- Witness for the amended C3: on the concrete two-record map, `isLocked`
at instant 60 reports the identity key's still-active lock. -/
theorem claimC3_amended_witness : (isLocked idA (some ipB) 60 stC3).1 = true :=
  (claimC3_amended idA (some ipB) 60 stC3).1.2
    ⟨emailKey idA, by simp [getCompositeKey], ⟨0, some 100, 0, 0⟩, 100,
      by decide, rfl, by decide⟩

/-- Claim C7: when failures from one origin, spread over any list of
`maxAttempts` identities, accumulate on the origin-only key of a fresh map
entry, that key locks with one lifetime lockout; and while that lock is
active `isLocked` returns `true` even for an identity with no record under
its own identity key. -/
theorem claimC7 (cfg : Config) (o newId : Str) (ids : List Str) (st : St) (now now2 : Nat)
    (hmax : 1 ≤ cfg.maxAttempts)
    (hlen : ids.length = cfg.maxAttempts)
    (hip0 : st (ipKey o) = none)
    (hnew : (multiRun cfg o now ids st) (emailKey newId) = none)
    (hnow2 : now2 < now + calculateLockoutDuration cfg 1) :
    (multiRun cfg o now ids st) (ipKey o) =
      some ⟨0, some (now + calculateLockoutDuration cfg 1), 1, now⟩ ∧
    (isLocked newId (some o) now2 (multiRun cfg o now ids st)).1 = true := by
  obtain ⟨i, ids2, rfl⟩ : ∃ i ids2, ids = i :: ids2 := by
    cases ids with
    | nil => exfalso; simp at hlen; omega
    | cons i ids2 => exact ⟨i, ids2, rfl⟩
  have hlen2 : ids2.length + 1 = cfg.maxAttempts := by simpa using hlen
  have hipState := multiRun_ip_fresh cfg o now i ids2 st hip0
  rw [hlen2] at hipState
  have hfr : freshRecord now = (⟨0, none, 0, now⟩ : LockoutRecord) := rfl
  rw [hfr, stepRecordN_lock cfg now 0 hmax] at hipState
  refine ⟨hipState, ?_⟩
  simp only [isLocked, getCompositeKey, isLockedLoop, hnew, hipState]
  rw [if_pos hnow2]

/-- Witness for C7: with a threshold of 2, failures by two different
identities from origin `ipB` lock out a third, untouched identity. -/
theorem claimC7_witness :
    (isLocked [100] (some ipB) 0 (multiRun ⟨2, 1⟩ ipB 0 [idA, [99]] emptySt)).1 = true :=
  (claimC7 ⟨2, 1⟩ ipB [100] [idA, [99]] emptySt 0 0 (by decide) (by decide) rfl
    (by decide) (by decide)).2

/-- Claim C4, counterexample: with the base window configured at the
24-hour ceiling and a threshold of one attempt, the lock after a
`clearAttempts` lasts exactly as long as the previous one (both 86400000
ms), so the fresh post-clear lockout is not strictly longer. -/
theorem claimC4_counterexample :
    (recordFailedAttempt cfgC4 idA none 0 emptySt).2 (emailKey idA) =
      some ⟨0, some 86400000, 1, 0⟩ ∧
    (recordFailedAttempt cfgC4 idA none 0
        (clearAttempts idA none (recordFailedAttempt cfgC4 idA none 0 emptySt).2)).2
      (emailKey idA) = some ⟨0, some 86400000, 2, 0⟩ ∧
    ¬ (∃ d2, (recordFailedAttempt cfgC4 idA none 0
        (clearAttempts idA none (recordFailedAttempt cfgC4 idA none 0 emptySt).2)).2
      (emailKey idA) = some ⟨0, some d2, 2, 0⟩ ∧ 86400000 < d2) := by
  refine ⟨by decide, by decide, ?_⟩
  rintro ⟨d2, hd, hlt⟩
  rw [show (recordFailedAttempt cfgC4 idA none 0
      (clearAttempts idA none (recordFailedAttempt cfgC4 idA none 0 emptySt).2)).2
      (emailKey idA) = some ⟨0, some 86400000, 2, 0⟩ from by decide] at hd
  simp at hd
  omega

/-- Claim C4, amended: `clearAttempts` zeroes the count and drops the lock
on every derived record while preserving `totalLockouts`; a fresh run of
`maxAttempts` failures on a cleared key with `L` lifetime lockouts locks
again with `L + 1` of them; the lockout duration never decreases with the
lifetime count, and it strictly increases as long as the exponent is below
the cap of 10 and the doubled product is still below the 24-hour ceiling. -/
theorem claimC4_amended (cfg : Config) (idt : Str) (ip : Option Str) (now : Nat) (st : St)
    (hmax : 1 ≤ cfg.maxAttempts) (hbase : 1 ≤ cfg.baseLockoutMs) :
    (∀ k ∈ getCompositeKey idt ip, ∀ r, st k = some r →
      clearAttempts idt ip st k = some ⟨0, none, r.totalLockouts, r.lastAttempt⟩) ∧
    (∀ L, stepRecordN cfg now cfg.maxAttempts ⟨0, none, L, now⟩ =
      ⟨0, some (now + calculateLockoutDuration cfg (L + 1)), L + 1, now⟩) ∧
    (∀ L, calculateLockoutDuration cfg L ≤ calculateLockoutDuration cfg (L + 1)) ∧
    (∀ L, L < 10 → cfg.baseLockoutMs * 2 ^ (L + 1) ≤ 24 * 60 * 60 * 1000 →
      calculateLockoutDuration cfg L < calculateLockoutDuration cfg (L + 1)) := by
  refine ⟨?_, ?_, ?_, ?_⟩
  · intro k hk r hr
    rw [clearAttempts_apply idt ip st k hk, hr]
    rfl
  · intro L
    exact stepRecordN_lock cfg now L hmax
  · intro L
    exact calculateLockoutDuration_mono cfg L
  · intro L hL hcap
    exact calculateLockoutDuration_strict cfg hbase L hL hcap

/-- Witness for the amended C4: at base 1 ms the second lockout window is
strictly longer than the first. -/
theorem claimC4_amended_witness :
    calculateLockoutDuration ⟨1, 1⟩ 0 < calculateLockoutDuration ⟨1, 1⟩ 1 :=
  (claimC4_amended ⟨1, 1⟩ idA none 0 emptySt (by decide) (by decide)).2.2.2 0
    (by decide) (by decide)

/-- Claim C5, evaluation at the failing input: `fullReset` deletes the
derived records (including the 4 lifetime lockouts stored for `idA`), but
the subsequent fresh sequence of 5 failures locks for
`min(base * 2^1, 24h) = 1800000` ms, twice the configured 900000 ms base —
not the base duration. -/
theorem claimC5_code_eval :
    fullReset idA (some ipB) stC5 (emailKey idA) = none ∧
    fullReset idA (some ipB) stC5 (ipKey ipB) = none ∧
    fullReset idA (some ipB) stC5 (comboKey idA ipB) = none ∧
    (runFails cfg15 idA (some ipB) 0 (fullReset idA (some ipB) stC5) 5) (emailKey idA) =
      some ⟨0, some 1800000, 1, 0⟩ ∧
    cfg15.baseLockoutMs = 900000 ∧
    ¬ (1800000 : Nat) = 900000 := by
  refine ⟨by decide, by decide, by decide, by decide, rfl, by decide⟩

/-- Claim C6, evaluation at the failing input: with the default
configuration (5 attempts, 15-minute base) the 5th call returns `true` and
`isLocked` is `true`, but `getRemainingLockoutTime` returns 30 minutes, not
15; after the window elapses the 6th failure is accepted as attempt #1 of a
new cycle (no lock, count 1), and the next lock is the second in the key's
history (lifetime count 2, window 60 minutes). -/
theorem claimC6_code_eval :
    nthCallResult cfg15 idA (some ipB) 0 emptySt 5 = true ∧
    (isLocked idA (some ipB) 0 (runFails cfg15 idA (some ipB) 0 emptySt 5)).1 = true ∧
    getRemainingLockoutTime idA (some ipB) 0 (runFails cfg15 idA (some ipB) 0 emptySt 5) = 30 ∧
    ¬ getRemainingLockoutTime idA (some ipB) 0 (runFails cfg15 idA (some ipB) 0 emptySt 5) = 15 ∧
    (recordFailedAttempt cfg15 idA (some ipB) 1800000
      (runFails cfg15 idA (some ipB) 0 emptySt 5)).1 = false ∧
    (recordFailedAttempt cfg15 idA (some ipB) 1800000
      (runFails cfg15 idA (some ipB) 0 emptySt 5)).2 (emailKey idA) =
        some ⟨1, some 1800000, 1, 1800000⟩ ∧
    (runFails cfg15 idA (some ipB) 1800000
      (runFails cfg15 idA (some ipB) 0 emptySt 5) 5) (emailKey idA) =
        some ⟨0, some 5400000, 2, 1800000⟩ := by
  refine ⟨by decide, by decide, by decide, by decide, by decide, by decide, by decide⟩

/-- Claim C8, counterexample: it is not the case that the sweep deletes
every record that is unlocked (lock unset or elapsed) and stale.  The
record `rC8`, whose lock expired one hour before instant 360000000 and whose
last attempt lies 25 hours before it, survives `cleanup`. -/
theorem claimC8_counterexample :
    ¬ (∀ k r, stC8 k = some r →
        (r.lockedUntil = none ∨ ∃ t, r.lockedUntil = some t ∧ t ≤ 360000000) →
        r.lastAttempt + RECORD_EXPIRY_MS < 360000000 →
        cleanup 360000000 stC8 k = none) := by
  intro h
  have hx := h (emailKey idA) rC8 (by decide) (Or.inr ⟨356400000, rfl, by decide⟩)
    (by decide)
  rw [show cleanup 360000000 stC8 (emailKey idA) = some rC8 from by decide] at hx
  cases hx

/-- Claim C8, amended: the sweep deletes exactly the records that either
carry no `lockedUntil` and have a `lastAttempt` older than the retention
cutoff, or whose `lockedUntil` itself precedes the retention cutoff; and it
never deletes a record whose `lockedUntil` is still in the future. -/
theorem claimC8_amended (now : Nat) (st : St) (k : Str) (r : LockoutRecord)
    (h : st k = some r) :
    (cleanup now st k = none ↔
      (r.lockedUntil = none ∧ r.lastAttempt < now - RECORD_EXPIRY_MS) ∨
      (∃ t, r.lockedUntil = some t ∧ t < now - RECORD_EXPIRY_MS)) ∧
    (∀ t, r.lockedUntil = some t → now ≤ t → cleanup now st k = some r) := by
  constructor
  · simp only [cleanup, h]
    rcases hl : r.lockedUntil with _ | t <;> simp only [hl]
    · by_cases hs : r.lastAttempt < now - RECORD_EXPIRY_MS
      · rw [if_pos ⟨trivial, hs⟩]
        simp [hs]
      · rw [if_neg (fun hcon => hs hcon.2)]
        simp [hs]
    · rw [if_neg (fun hcon => Option.noConfusion hcon.1)]
      by_cases hc : t < now - RECORD_EXPIRY_MS
      · rw [if_pos hc]
        simp [hc]
      · rw [if_neg hc]
        simp [hc]
  · intro t hl hnow
    have hc : ¬ t < now - RECORD_EXPIRY_MS := by
      have hle : now - RECORD_EXPIRY_MS ≤ now := Nat.sub_le _ _
      omega
    simp [cleanup, h, hl, hc]

/-- Witness for the amended C8: at instant 0 the still-locked record `rC8`
survives the sweep. -/
theorem claimC8_amended_witness : cleanup 0 stC8 (emailKey idA) = some rC8 :=
  (claimC8_amended 0 stC8 (emailKey idA) rC8 (by decide)).2 356400000 rfl (by decide)

end Lockout
